import Mathlib

/-!
Verification of the signature core of `signature.c`: ECDSA signature
canonicalization (`sign_hash`), the transaction digest builder
(`sha256_tx_one_input`), signature checking (`check_signed_hash`,
`check_2of2_sig`), and the wire codec (`signature_to_proto`,
`proto_to_signature`).

Modelling conventions:
* A byte is a `Nat`; byte buffers are `List Nat` (a `struct signature`
  holds two 32-byte buffers `r` and `s`).
* External collaborators (the OpenSSL bignum/ECDSA primitives, the
  transaction serializer `sha256_tx`, the double-SHA256 hash, the
  `is_p2sh` classifier, the public-key decoder) are universally
  quantified function parameters: the theorems hold for every choice
  of collaborator behaviour.
* A C `assert` aborts the process; an aborting execution is modelled
  as the `none` branch of an `Option`-valued function.
* An out-parameter written by a function is modelled by passing the
  buffer's previous contents in and returning the new contents.
-/

/-- A `struct signature`: two 32-byte big-endian magnitudes `r` and `s`. -/
structure Signature where
  r : List Nat
  s : List Nat
deriving DecidableEq

/-- The protobuf `Signature` record: eight 64-bit fields.  `signature.c`
only ever `memcpy`s raw bytes in and out of these fields, so each field
is modelled by its 8-byte contents; the field read as a big-endian word
has the value `beVal` of those bytes. -/
structure WireSig where
  r1 : List Nat
  r2 : List Nat
  r3 : List Nat
  r4 : List Nat
  s1 : List Nat
  s2 : List Nat
  s3 : List Nat
  s4 : List Nat
deriving DecidableEq

/-- Big-endian value of a byte string. -/
def beVal (l : List Nat) : Nat :=
  l.foldl (fun a b => a * 256 + b) 0

/-- The 8-byte chunk of buffer `l` starting at byte offset `off`
(`memcpy(dst, l + off, 8)`). -/
def chunk (l : List Nat) (off : Nat) : List Nat :=
  (l.drop off).take 8

/-- `signature_to_proto` from `signature.c`: asserts the canonical-`s`
invariant (`assert((sig->s[31] & 1) == 0)`, modelled as `none` on abort),
then copies the four 8-byte chunks of `r` and of `s` into the eight
fields in order. -/
def signature_to_proto (sig : Signature) : Option WireSig :=
  if (sig.s.getD 31 1) % 2 = 0 then
    some { r1 := chunk sig.r 0, r2 := chunk sig.r 8
           r3 := chunk sig.r 16, r4 := chunk sig.r 24
           s1 := chunk sig.s 0, s2 := chunk sig.s 8
           s3 := chunk sig.s 16, s4 := chunk sig.s 24 }
  else none

/-- `proto_to_signature` from `signature.c`: unconditionally copies the
eight fields back into the caller's signature buffer (`old` holds the
buffer's previous contents, which the function never reads), then
returns whether the low bit of the reassembled `s`'s byte 31 is clear.
The result pairs the buffer's new contents with that boolean. -/
def proto_to_signature (pb : WireSig) (old : Signature) : Signature × Bool :=
  let sig : Signature :=
    { r := pb.r1 ++ pb.r2 ++ pb.r3 ++ pb.r4
      s := pb.s1 ++ pb.s2 ++ pb.s3 ++ pb.s4 }
  (sig, decide ((sig.s.getD 31 1) % 2 = 0))

lemma chunk_length {l : List Nat} (h : l.length = 32) (off : Nat)
    (hoff : off + 8 ≤ 32) : (chunk l off).length = 8 := by
  simp [chunk, h]
  omega

lemma chunks_append (l : List Nat) (h : l.length = 32) :
    chunk l 0 ++ (chunk l 8 ++ (chunk l 16 ++ chunk l 24)) = l := by
  have h24 : chunk l 24 = l.drop 24 := by
    apply List.take_of_length_le
    simp [h]
  have e16 : chunk l 16 ++ chunk l 24 = l.drop 16 := by
    rw [h24, chunk, show (24 : Nat) = 16 + 8 by rfl, ← List.drop_drop]
    exact List.take_append_drop 8 (l.drop 16)
  have e8 : chunk l 8 ++ (chunk l 16 ++ chunk l 24) = l.drop 8 := by
    rw [e16, chunk, show (16 : Nat) = 8 + 8 by rfl, ← List.drop_drop]
    exact List.take_append_drop 8 (l.drop 8)
  rw [e8, chunk, List.drop_zero]
  exact List.take_append_drop 8 l

/-- `BN_bn2bin` of `n`, left-padded with zero bytes to `len` bytes: the
big-endian byte string of `n`. -/
def natToBytesBE : Nat → Nat → List Nat
  | _, 0 => []
  | n, len + 1 => natToBytesBE (n / 256) len ++ [n % 256]

/-- Packing step of `sign_hash`: the source asserts
`BN_num_bytes(x) <= 32` for each of `r` and `s` (abort modelled as
`none`), then `BN_bn2bin` writes each value left-padded into its 32-byte
buffer. -/
def pack_rs (r s : Nat) : Option Signature :=
  if r < 2 ^ 256 then
    if s < 2 ^ 256 then
      some { r := natToBytesBE r 32, s := natToBytesBE s 32 }
    else none
  else none

/-- `sign_hash` from `signature.c`, after the signing primitive: `none`
input models `ECDSA_do_sign` returning NULL (the failure outcome).  If
the raw `s` is odd it is replaced by `order - s` (the order of the
private key's curve group) and the source asserts the result even; the
pair is then packed into 32-byte big-endian buffers. -/
def sign_hash_pack (order : Nat) : Option (Nat × Nat) → Option Signature
  | none => none
  | some (r, s) =>
    if s % 2 = 1 then
      if (order - s) % 2 = 1 then none
      else pack_rs r (order - s)
    else pack_rs r s

/-- `sign_hash` from `signature.c`, parametric over the digest type `H`,
private-key type `K`, and the external signing primitive `prim`
(`ECDSA_do_sign`), which returns the raw `(r, s)` pair or fails. -/
def sign_hash {H K : Type} (prim : H → K → Option (Nat × Nat))
    (order : Nat) (h : H) (k : K) : Option Signature :=
  sign_hash_pack order (prim h k)

lemma natToBytesBE_length (n len : Nat) :
    (natToBytesBE n len).length = len := by
  induction len generalizing n with
  | zero => rfl
  | succ m ih => simp [natToBytesBE, ih]

lemma natToBytesBE_succ (n len : Nat) :
    natToBytesBE n (len + 1) = natToBytesBE (n / 256) len ++ [n % 256] := by
  simp only [natToBytesBE]

lemma natToBytesBE_getD_31 (n d : Nat) :
    (natToBytesBE n 32).getD 31 d = n % 256 := by
  rw [show (32 : Nat) = 31 + 1 from rfl, natToBytesBE_succ,
    List.getD_append_right _ _ _ _ (by rw [natToBytesBE_length])]
  simp [natToBytesBE_length]

lemma pack_rs_spec (r s : Nat) (hr : r < 2 ^ 256) (hs2 : s % 2 = 0)
    (hs : s < 2 ^ 256) :
    ∃ sig, pack_rs r s = some sig ∧ (sig.s.getD 31 1) % 2 = 0 ∧
      sig.s = natToBytesBE s 32 := by
  refine ⟨{ r := natToBytesBE r 32, s := natToBytesBE s 32 }, ?_, ?_, rfl⟩
  · rw [pack_rs, if_pos hr, if_pos hs]
  · show (natToBytesBE s 32).getD 31 1 % 2 = 0
    rw [natToBytesBE_getD_31]
    omega

/-- C3: for every digest `h` and private key `k` (any behaviour of the
signing primitive with in-range output, over a curve group of odd
order), `sign_hash` either fails because the primitive failed, or
returns a signature whose `s` has low bit 0 in its big-endian bytes;
when the primitive's raw `s` is odd the returned `s` is the 32-byte
big-endian encoding of `order - s`. -/
theorem sign_hash_canonical_s {H K : Type}
    (prim : H → K → Option (Nat × Nat)) (order : Nat) (h : H) (k : K)
    (hodd : order % 2 = 1) (hlt : order < 2 ^ 256)
    (hrange : ∀ r s, prim h k = some (r, s) →
      r < 2 ^ 256 ∧ 0 < s ∧ s < order) :
    (prim h k = none ∧ sign_hash prim order h k = none) ∨
    (∃ r0 s0 sig, prim h k = some (r0, s0) ∧
       sign_hash prim order h k = some sig ∧
       (sig.s.getD 31 1) % 2 = 0 ∧
       (s0 % 2 = 1 → sig.s = natToBytesBE (order - s0) 32)) := by
  cases hp : prim h k with
  | none =>
    refine Or.inl ⟨rfl, ?_⟩
    rw [sign_hash, hp]
    rfl
  | some rs =>
    obtain ⟨r0, s0⟩ := rs
    obtain ⟨hr, hs0, hslt⟩ := hrange r0 s0 hp
    by_cases hpar : s0 % 2 = 1
    · have heven : (order - s0) % 2 = 0 := by omega
      obtain ⟨sig, hps, hparity, hss⟩ :=
        pack_rs_spec r0 (order - s0) hr heven (by omega)
      refine Or.inr ⟨r0, s0, sig, rfl, ?_, hparity, fun _ => hss⟩
      rw [sign_hash, hp]
      simp only [sign_hash_pack]
      rw [if_pos hpar, if_neg (by omega), hps]
    · obtain ⟨sig, hps, hparity, hss⟩ :=
        pack_rs_spec r0 s0 hr (by omega) (by omega)
      refine Or.inr ⟨r0, s0, sig, rfl, ?_, hparity,
        fun hcon => absurd hcon hpar⟩
      rw [sign_hash, hp]
      simp only [sign_hash_pack]
      rw [if_neg hpar, hps]

theorem sign_hash_canonical_s_witness :
    (some ((3 : Nat), (5 : Nat)) = none ∧
       sign_hash (fun (_ : Nat) (_ : Nat) => some (3, 5)) 7 0 0 = none) ∨
    (∃ r0 s0 sig, some ((3 : Nat), (5 : Nat)) = some (r0, s0) ∧
       sign_hash (fun (_ : Nat) (_ : Nat) => some (3, 5)) 7 0 0 = some sig ∧
       (sig.s.getD 31 1) % 2 = 0 ∧
       (s0 % 2 = 1 → sig.s = natToBytesBE (7 - s0) 32)) :=
  sign_hash_canonical_s (fun (_ : Nat) (_ : Nat) => some (3, 5)) 7 0 0
    (by norm_num) (by norm_num)
    (by
      intro r s hrs
      simp only [Option.some.injEq, Prod.mk.injEq] at hrs
      obtain ⟨h1, h2⟩ := hrs
      subst h1
      subst h2
      refine ⟨by norm_num, by norm_num, by norm_num⟩)

/-- One transaction input: its script field — `none` models
`script = NULL, script_length = 0` — plus its remaining fields
(previous-output reference, sequence number), which `signature.c` never
touches and which are opaque here. -/
structure TxInput where
  script : Option (List Nat)
  rest : Nat
deriving DecidableEq

/-- A `struct bitcoin_tx`: the ordered inputs plus the remaining fields
(version, outputs, lock time), opaque to `signature.c`. -/
structure BitcoinTx where
  input : List TxInput
  rest : Nat
deriving DecidableEq

/-- A `struct bitcoin_tx_output`: amount plus script bytes. -/
structure TxOutput where
  amount : Nat
  script : List Nat
deriving DecidableEq

/-- A `struct pubkey`: the serialized curve-point bytes (with their
length). -/
structure Pubkey where
  key : List Nat
deriving DecidableEq

/-- Write `v` into the script field of input `i`, leaving every other
input — and the input's other fields — unchanged. -/
def setScript : List TxInput → Nat → Option (List Nat) → List TxInput
  | [], _, _ => []
  | inp :: tl, 0, v => { inp with script := v } :: tl
  | inp :: tl, i + 1, v => inp :: setScript tl i v

/-- The `SIGHASH_ALL` signature-type tag. -/
def SIGHASH_ALL : Nat := 1

/-- `sha256_le32`: the 4 little-endian bytes of a 32-bit tag as fed to
the hash state. -/
def le32 (n : Nat) : List Nat :=
  [n % 256, n / 256 % 256, n / 2 ^ 16 % 256, n / 2 ^ 24 % 256]

/-- `sha256_tx_one_input` from `signature.c`, parametric over the
external transaction serializer `ser` (the byte stream `sha256_tx`
feeds to the hash state) and the double-SHA256 `hash2`
(`sha256_double_done`), with digest type `D`.  The asserts — index in
bounds, every input's script already empty — abort (`none`) when
violated.  Otherwise the subscript is installed as input `input_num`'s
script, the serialized transaction followed by the little-endian
`SIGHASH_ALL` tag is double-hashed, and the input's script is reset to
empty; the result pairs the digest with the transaction as the call
leaves it. -/
def sha256_tx_one_input {D : Type} (ser : BitcoinTx → List Nat)
    (hash2 : List Nat → D) (tx : BitcoinTx) (input_num : Nat)
    (script : List Nat) : Option (D × BitcoinTx) :=
  if input_num < tx.input.length ∧ ∀ inp ∈ tx.input, inp.script = none then
    some (hash2 (ser { tx with
            input := setScript tx.input input_num (some script) } ++
          le32 SIGHASH_ALL),
      { tx with
        input := setScript (setScript tx.input input_num (some script))
          input_num none })
  else none

/-- `check_signed_hash` from `signature.c`, parametric over digest type
`D`, decoded-point type `P`, the external public-key decoder
(`o2i_ECPublicKey`) and the ECDSA verification primitive
(`ECDSA_do_verify`: 1 valid, 0 invalid, -1 error).  The source first
asserts the canonical-`s` invariant (abort modelled as `none`), then
returns `false` when the key fails to decode, and otherwise `true`
exactly when the primitive returns neither 0 nor -1.  The 32-byte
magnitudes are passed to the primitive as their big-endian values
(`BN_bin2bn`), with no range check of this module's own. -/
def check_signed_hash {D P : Type} (decodePub : List Nat → Option P)
    (ecdsaVerify : D → Nat → Nat → P → Int) (hash : D)
    (signature : Signature) (key : Pubkey) : Option Bool :=
  if (signature.s.getD 31 1) % 2 = 0 then
    match decodePub key.key with
    | none => some false
    | some pt =>
      let v := ecdsaVerify hash (beVal signature.r) (beVal signature.s) pt
      if v = 0 then some false
      else if v = -1 then some false
      else some true
  else none

/-- `check_2of2_sig` from `signature.c`: asserts the input index in
bounds and `is_p2sh` on the output's script (the external classifier
`isP2SH`; aborts modelled as `none`), computes the one shared digest
via `sha256_tx_one_input` over the output's script, then checks `sig1`
against `key1` and — only if that yielded `true` — `sig2` against
`key2`, exactly as the source's short-circuiting `&&`. -/
def check_2of2_sig {D P : Type} (ser : BitcoinTx → List Nat)
    (hash2 : List Nat → D) (isP2SH : List Nat → Bool)
    (decodePub : List Nat → Option P)
    (ecdsaVerify : D → Nat → Nat → P → Int) (tx : BitcoinTx)
    (input_num : Nat) (output : TxOutput) (key1 key2 : Pubkey)
    (sig1 sig2 : Signature) : Option Bool :=
  if input_num < tx.input.length then
    if isP2SH output.script then
      (sha256_tx_one_input ser hash2 tx input_num output.script).bind
        fun dtx =>
          (check_signed_hash decodePub ecdsaVerify dtx.1 sig1 key1).bind
            fun ok1 =>
              if ok1 then
                check_signed_hash decodePub ecdsaVerify dtx.1 sig2 key2
              else some false
    else none
  else none

lemma setScript_setScript (l : List TxInput) (i : Nat)
    (v w : Option (List Nat)) :
    setScript (setScript l i v) i w = setScript l i w := by
  induction l generalizing i with
  | nil => rfl
  | cons a t ih =>
    cases i with
    | zero => rfl
    | succ j => simp [setScript, ih]

lemma setScript_none_of_all_none (l : List TxInput) (i : Nat)
    (h : ∀ inp ∈ l, inp.script = none) :
    setScript l i none = l := by
  induction l generalizing i with
  | nil => rfl
  | cons a t ih =>
    cases i with
    | zero =>
      have ha : a.script = none := h a (by simp)
      obtain ⟨sc, r⟩ := a
      simp only [setScript]
      simp_all
    | succ j =>
      simp only [setScript, List.cons.injEq, true_and]
      exact ih j (fun inp hm => h inp (List.mem_cons_of_mem a hm))

lemma sha256_tx_one_input_spec {D : Type} (ser : BitcoinTx → List Nat)
    (hash2 : List Nat → D) (tx : BitcoinTx) (input_num : Nat)
    (script : List Nat) (hlt : input_num < tx.input.length)
    (hempty : ∀ inp ∈ tx.input, inp.script = none) :
    sha256_tx_one_input ser hash2 tx input_num script =
      some (hash2 (ser { tx with
          input := setScript tx.input input_num (some script) } ++
        le32 SIGHASH_ALL), tx) := by
  rw [sha256_tx_one_input, if_pos ⟨hlt, hempty⟩, setScript_setScript,
    setScript_none_of_all_none tx.input input_num hempty]

lemma check_signed_hash_some {D P : Type} (decodePub : List Nat → Option P)
    (ecdsaVerify : D → Nat → Nat → P → Int) (hash : D)
    (sig : Signature) (key : Pubkey)
    (hc : (sig.s.getD 31 1) % 2 = 0) :
    ∃ v, check_signed_hash decodePub ecdsaVerify hash sig key = some v := by
  rw [check_signed_hash, if_pos hc]
  cases decodePub key.key with
  | none => exact ⟨false, rfl⟩
  | some pt =>
    simp only []
    split
    · exact ⟨false, rfl⟩
    · split
      · exact ⟨false, rfl⟩
      · exact ⟨true, rfl⟩

/-- C1: for every canonical signature (low bit of `s[31]` clear),
decoding the wire record produced by encoding succeeds and writes back
exactly the original 32-byte `r` and `s`, whatever the output buffer
held before. -/
theorem proto_roundtrip_canonical (sig : Signature) (old : Signature)
    (hr : sig.r.length = 32) (hs : sig.s.length = 32)
    (hc : (sig.s.getD 31 1) % 2 = 0) :
    ∃ w, signature_to_proto sig = some w ∧
      proto_to_signature w old = (sig, true) := by
  refine ⟨_, by rw [signature_to_proto, if_pos hc], ?_⟩
  obtain ⟨r, s⟩ := sig
  rw [proto_to_signature]
  simp only [List.append_assoc]
  rw [chunks_append r hr, chunks_append s hs]
  simp_all

theorem proto_roundtrip_canonical_witness :
    ∃ w, signature_to_proto ⟨List.replicate 32 0, List.replicate 32 0⟩ = some w ∧
      proto_to_signature w ⟨[], []⟩ = (⟨List.replicate 32 0, List.replicate 32 0⟩, true) :=
  proto_roundtrip_canonical ⟨List.replicate 32 0, List.replicate 32 0⟩ ⟨[], []⟩
    (by decide) (by decide) (by decide)

/-- C2 counterexample: `signature_to_proto` is not total.  On a
signature whose `s` has its low bit set (here `s = 0…01`) the source's
`assert((sig->s[31] & 1) == 0)` fails and the process aborts: no wire
record is produced. -/
theorem signature_to_proto_aborts_on_odd_s :
    signature_to_proto ⟨List.replicate 32 0, List.replicate 31 0 ++ [1]⟩ = none := by
  decide

/-- C2 (amended): `signature_to_proto` is total on canonical signatures:
whenever the low bit of `s`'s byte 31 is clear it completes and produces
a wire record. -/
theorem signature_to_proto_total_on_canonical (sig : Signature)
    (hc : (sig.s.getD 31 1) % 2 = 0) :
    ∃ w, signature_to_proto sig = some w := by
  exact ⟨_, by rw [signature_to_proto, if_pos hc]⟩

theorem signature_to_proto_total_on_canonical_witness :
    ∃ w, signature_to_proto ⟨List.replicate 32 7, List.replicate 32 4⟩ = some w :=
  signature_to_proto_total_on_canonical ⟨List.replicate 32 7, List.replicate 32 4⟩
    (by decide)

/-- C5 counterexample: when decoding fails (reassembled `s` is odd), the
caller-visible signature buffer is NOT left unchanged: the source
`memcpy`s all eight fields into the buffer before the parity check.
Here the buffer starts all-zero, decoding fails, and the buffer ends up
holding the reassembled record (its first byte is now 1). -/
theorem proto_to_signature_overwrites_on_failure :
    (proto_to_signature
        ⟨1 :: List.replicate 7 0, List.replicate 8 0, List.replicate 8 0,
         List.replicate 8 0, List.replicate 8 0, List.replicate 8 0,
         List.replicate 8 0, List.replicate 7 0 ++ [1]⟩
        ⟨List.replicate 32 0, List.replicate 32 0⟩).2 = false ∧
    (proto_to_signature
        ⟨1 :: List.replicate 7 0, List.replicate 8 0, List.replicate 8 0,
         List.replicate 8 0, List.replicate 8 0, List.replicate 8 0,
         List.replicate 8 0, List.replicate 7 0 ++ [1]⟩
        ⟨List.replicate 32 0, List.replicate 32 0⟩).1 ≠
      ⟨List.replicate 32 0, List.replicate 32 0⟩ := by
  exact ⟨by decide, by decide⟩

/-- C5 (amended): when decoding fails, the failure is signalled by the
`false` result (no signature is reported as decoded), but the caller's
buffer is fully overwritten with the reassembled bytes — every byte of
the output comes from the wire record, none from the previous
contents — rather than left unchanged. -/
theorem proto_to_signature_failure_buffer (pb : WireSig) (old : Signature)
    (hfail : (proto_to_signature pb old).2 = false) :
    (proto_to_signature pb old).1 =
      { r := pb.r1 ++ pb.r2 ++ pb.r3 ++ pb.r4
        s := pb.s1 ++ pb.s2 ++ pb.s3 ++ pb.s4 } ∧
    ((pb.s1 ++ pb.s2 ++ pb.s3 ++ pb.s4).getD 31 1) % 2 = 1 := by
  refine ⟨rfl, ?_⟩
  have h2 : ((pb.s1 ++ pb.s2 ++ pb.s3 ++ pb.s4).getD 31 1) % 2 ≠ 0 := by
    intro h
    rw [proto_to_signature] at hfail
    simp only [decide_eq_false_iff_not] at hfail
    exact hfail h
  omega

theorem proto_to_signature_failure_buffer_witness :
    (proto_to_signature
        ⟨1 :: List.replicate 7 0, List.replicate 8 0, List.replicate 8 0,
         List.replicate 8 0, List.replicate 8 0, List.replicate 8 0,
         List.replicate 8 0, List.replicate 7 0 ++ [1]⟩
        ⟨List.replicate 32 0, List.replicate 32 0⟩).1 =
      { r := (1 :: List.replicate 7 0) ++ List.replicate 8 0 ++
               List.replicate 8 0 ++ List.replicate 8 0
        s := List.replicate 8 0 ++ List.replicate 8 0 ++
               List.replicate 8 0 ++ (List.replicate 7 0 ++ [1]) } ∧
    ((List.replicate 8 0 ++ List.replicate 8 0 ++ List.replicate 8 0 ++
        (List.replicate 7 0 ++ [1])).getD 31 1) % 2 = 1 :=
  proto_to_signature_failure_buffer
    ⟨1 :: List.replicate 7 0, List.replicate 8 0, List.replicate 8 0,
     List.replicate 8 0, List.replicate 8 0, List.replicate 8 0,
     List.replicate 8 0, List.replicate 7 0 ++ [1]⟩
    ⟨List.replicate 32 0, List.replicate 32 0⟩ (by decide)

/-- C7: for every wire record (well-formed 8-byte fields),
`proto_to_signature` reassembles the 32-byte `r` and `s` from the eight
fields in order `r1..r4, s1..s4` and then checks the canonicalization
invariant: it reports failure exactly when the low bit of the
reassembled `s`'s last byte is set. -/
theorem proto_to_signature_reassembles_then_checks (pb : WireSig)
    (old : Signature)
    (h1 : pb.s1.length = 8) (h2 : pb.s2.length = 8)
    (h3 : pb.s3.length = 8) (h4 : pb.s4.length = 8) :
    (proto_to_signature pb old).1.r = pb.r1 ++ pb.r2 ++ pb.r3 ++ pb.r4 ∧
    (proto_to_signature pb old).1.s = pb.s1 ++ pb.s2 ++ pb.s3 ++ pb.s4 ∧
    (proto_to_signature pb old).1.s.length = 32 ∧
    ((proto_to_signature pb old).2 = false ↔
      ((proto_to_signature pb old).1.s.getD 31 1) % 2 = 1) := by
  refine ⟨rfl, rfl, by simp [proto_to_signature, h1, h2, h3, h4], ?_⟩
  rw [proto_to_signature]
  simp only [decide_eq_false_iff_not]
  omega

theorem proto_to_signature_reassembles_then_checks_witness :
    (proto_to_signature
        ⟨List.replicate 8 2, List.replicate 8 0, List.replicate 8 0,
         List.replicate 8 0, List.replicate 8 0, List.replicate 8 0,
         List.replicate 8 0, List.replicate 8 3⟩
        ⟨[], []⟩).1.r =
        List.replicate 8 2 ++ List.replicate 8 0 ++ List.replicate 8 0 ++
          List.replicate 8 0 ∧
    (proto_to_signature
        ⟨List.replicate 8 2, List.replicate 8 0, List.replicate 8 0,
         List.replicate 8 0, List.replicate 8 0, List.replicate 8 0,
         List.replicate 8 0, List.replicate 8 3⟩
        ⟨[], []⟩).1.s =
        List.replicate 8 0 ++ List.replicate 8 0 ++ List.replicate 8 0 ++
          List.replicate 8 3 ∧
    (proto_to_signature
        ⟨List.replicate 8 2, List.replicate 8 0, List.replicate 8 0,
         List.replicate 8 0, List.replicate 8 0, List.replicate 8 0,
         List.replicate 8 0, List.replicate 8 3⟩
        ⟨[], []⟩).1.s.length = 32 ∧
    ((proto_to_signature
        ⟨List.replicate 8 2, List.replicate 8 0, List.replicate 8 0,
         List.replicate 8 0, List.replicate 8 0, List.replicate 8 0,
         List.replicate 8 0, List.replicate 8 3⟩
        ⟨[], []⟩).2 = false ↔
      ((proto_to_signature
        ⟨List.replicate 8 2, List.replicate 8 0, List.replicate 8 0,
         List.replicate 8 0, List.replicate 8 0, List.replicate 8 0,
         List.replicate 8 0, List.replicate 8 3⟩
        ⟨[], []⟩).1.s.getD 31 1) % 2 = 1) :=
  proto_to_signature_reassembles_then_checks
    ⟨List.replicate 8 2, List.replicate 8 0, List.replicate 8 0,
     List.replicate 8 0, List.replicate 8 0, List.replicate 8 0,
     List.replicate 8 0, List.replicate 8 3⟩
    ⟨[], []⟩ (by decide) (by decide) (by decide) (by decide)

/-- C8: for every canonical signature, encoding succeeds and each of the
eight wire fields is exactly the corresponding 8-byte chunk of `r` or
`s`, taken high-to-low (`r1` = bytes 0..7 of `r`, …, `s4` = bytes 24..31
of `s`); each field is 8 bytes wide and its big-endian word value is the
big-endian interpretation of its chunk. -/
theorem signature_to_proto_wire_words (sig : Signature)
    (hr : sig.r.length = 32) (hs : sig.s.length = 32)
    (hc : (sig.s.getD 31 1) % 2 = 0) :
    ∃ w, signature_to_proto sig = some w ∧
      (w.r1 = chunk sig.r 0 ∧ w.r2 = chunk sig.r 8 ∧
       w.r3 = chunk sig.r 16 ∧ w.r4 = chunk sig.r 24 ∧
       w.s1 = chunk sig.s 0 ∧ w.s2 = chunk sig.s 8 ∧
       w.s3 = chunk sig.s 16 ∧ w.s4 = chunk sig.s 24) ∧
      (w.r1.length = 8 ∧ w.r2.length = 8 ∧ w.r3.length = 8 ∧
       w.r4.length = 8 ∧ w.s1.length = 8 ∧ w.s2.length = 8 ∧
       w.s3.length = 8 ∧ w.s4.length = 8) ∧
      (beVal w.r1 = beVal (chunk sig.r 0) ∧ beVal w.r2 = beVal (chunk sig.r 8) ∧
       beVal w.r3 = beVal (chunk sig.r 16) ∧ beVal w.r4 = beVal (chunk sig.r 24) ∧
       beVal w.s1 = beVal (chunk sig.s 0) ∧ beVal w.s2 = beVal (chunk sig.s 8) ∧
       beVal w.s3 = beVal (chunk sig.s 16) ∧ beVal w.s4 = beVal (chunk sig.s 24)) := by
  refine ⟨_, by rw [signature_to_proto, if_pos hc],
    ⟨rfl, rfl, rfl, rfl, rfl, rfl, rfl, rfl⟩,
    ⟨chunk_length hr 0 (by omega), chunk_length hr 8 (by omega),
     chunk_length hr 16 (by omega), chunk_length hr 24 (by omega),
     chunk_length hs 0 (by omega), chunk_length hs 8 (by omega),
     chunk_length hs 16 (by omega), chunk_length hs 24 (by omega)⟩,
    ⟨rfl, rfl, rfl, rfl, rfl, rfl, rfl, rfl⟩⟩

theorem signature_to_proto_wire_words_witness :
    ∃ w, signature_to_proto ⟨List.replicate 32 9, List.replicate 32 6⟩ = some w ∧
      (w.r1 = chunk (List.replicate 32 9) 0 ∧ w.r2 = chunk (List.replicate 32 9) 8 ∧
       w.r3 = chunk (List.replicate 32 9) 16 ∧ w.r4 = chunk (List.replicate 32 9) 24 ∧
       w.s1 = chunk (List.replicate 32 6) 0 ∧ w.s2 = chunk (List.replicate 32 6) 8 ∧
       w.s3 = chunk (List.replicate 32 6) 16 ∧ w.s4 = chunk (List.replicate 32 6) 24) ∧
      (w.r1.length = 8 ∧ w.r2.length = 8 ∧ w.r3.length = 8 ∧
       w.r4.length = 8 ∧ w.s1.length = 8 ∧ w.s2.length = 8 ∧
       w.s3.length = 8 ∧ w.s4.length = 8) ∧
      (beVal w.r1 = beVal (chunk (List.replicate 32 9) 0) ∧
       beVal w.r2 = beVal (chunk (List.replicate 32 9) 8) ∧
       beVal w.r3 = beVal (chunk (List.replicate 32 9) 16) ∧
       beVal w.r4 = beVal (chunk (List.replicate 32 9) 24) ∧
       beVal w.s1 = beVal (chunk (List.replicate 32 6) 0) ∧
       beVal w.s2 = beVal (chunk (List.replicate 32 6) 8) ∧
       beVal w.s3 = beVal (chunk (List.replicate 32 6) 16) ∧
       beVal w.s4 = beVal (chunk (List.replicate 32 6) 24)) :=
  signature_to_proto_wire_words ⟨List.replicate 32 9, List.replicate 32 6⟩
    (by decide) (by decide) (by decide)

/-- C10: decoding validates nothing but the parity of the last byte of
the reassembled `s`: for every well-formed wire record — any `r`
whatsoever and any `s`, of any magnitude (no comparison against the
curve order occurs) — `proto_to_signature` accepts exactly when the low
bit of `s4`'s last byte is clear. -/
theorem proto_to_signature_checks_only_parity (pb : WireSig)
    (old : Signature)
    (h1 : pb.s1.length = 8) (h2 : pb.s2.length = 8)
    (h3 : pb.s3.length = 8) (h4 : pb.s4.length = 8) :
    (proto_to_signature pb old).2 = true ↔ (pb.s4.getD 7 1) % 2 = 0 := by
  rw [proto_to_signature]
  simp only [decide_eq_true_eq]
  rw [List.getD_append_right (pb.s1 ++ pb.s2 ++ pb.s3) pb.s4 1 31
    (by simp [h1, h2, h3])]
  simp [h1, h2, h3]

theorem proto_to_signature_checks_only_parity_witness :
    (proto_to_signature
        ⟨List.replicate 8 255, List.replicate 8 255, List.replicate 8 255,
         List.replicate 8 255, List.replicate 8 255, List.replicate 8 255,
         List.replicate 8 255, List.replicate 7 255 ++ [254]⟩
        ⟨[], []⟩).2 = true ↔
      ((List.replicate 7 255 ++ [254]).getD 7 1) % 2 = 0 :=
  proto_to_signature_checks_only_parity
    ⟨List.replicate 8 255, List.replicate 8 255, List.replicate 8 255,
     List.replicate 8 255, List.replicate 8 255, List.replicate 8 255,
     List.replicate 8 255, List.replicate 7 255 ++ [254]⟩
    ⟨[], []⟩ (by decide) (by decide) (by decide) (by decide)

/-- C4: for every serializer and hash, a call to the digest builder on a
transaction satisfying its precondition (input index in bounds, every
input's script empty) succeeds and leaves every input of the transaction
in a state identical to its pre-call state: the returned transaction is
the very transaction passed in, all input scripts empty again. -/
theorem sha256_tx_one_input_restores {D : Type} (ser : BitcoinTx → List Nat)
    (hash2 : List Nat → D) (tx : BitcoinTx) (input_num : Nat)
    (script : List Nat) (hlt : input_num < tx.input.length)
    (hempty : ∀ inp ∈ tx.input, inp.script = none) :
    ∃ d, sha256_tx_one_input ser hash2 tx input_num script = some (d, tx) ∧
      ∀ inp ∈ tx.input, inp.script = none :=
  ⟨_, sha256_tx_one_input_spec ser hash2 tx input_num script hlt hempty,
    hempty⟩

theorem sha256_tx_one_input_restores_witness :
    ∃ d, sha256_tx_one_input (fun _ => ([] : List Nat)) (fun l => l)
        ⟨[⟨none, 0⟩, ⟨none, 5⟩], 3⟩ 0 [1, 2] =
      some (d, ⟨[⟨none, 0⟩, ⟨none, 5⟩], 3⟩) ∧
      ∀ inp ∈ (⟨[⟨none, 0⟩, ⟨none, 5⟩], 3⟩ : BitcoinTx).input,
        inp.script = none :=
  sha256_tx_one_input_restores (fun _ => []) (fun l => l)
    ⟨[⟨none, 0⟩, ⟨none, 5⟩], 3⟩ 0 [1, 2] (by decide) (by decide)

/-- C9: scenario — a transaction with exactly one input whose script is
empty: two successive calls to the digest builder with identical
arguments (the second on the transaction state left by the first) both
succeed with the identical digest, and the input's script is empty
before and after each call. -/
theorem sha256_tx_one_input_deterministic {D : Type}
    (ser : BitcoinTx → List Nat) (hash2 : List Nat → D) (tx : BitcoinTx)
    (S : List Nat) (hone : tx.input.length = 1)
    (hempty : ∀ inp ∈ tx.input, inp.script = none) :
    ∃ d tx1, sha256_tx_one_input ser hash2 tx 0 S = some (d, tx1) ∧
      sha256_tx_one_input ser hash2 tx1 0 S = some (d, tx1) ∧
      tx1 = tx ∧ ∀ inp ∈ tx1.input, inp.script = none := by
  have h := sha256_tx_one_input_spec ser hash2 tx 0 S (by omega) hempty
  exact ⟨_, tx, h, h, rfl, hempty⟩

theorem sha256_tx_one_input_deterministic_witness :
    ∃ d tx1, sha256_tx_one_input (fun tx => List.replicate tx.rest 0)
        (fun l => l.length) ⟨[⟨none, 9⟩], 4⟩ 0 [7, 7] = some (d, tx1) ∧
      sha256_tx_one_input (fun tx => List.replicate tx.rest 0)
        (fun l => l.length) tx1 0 [7, 7] = some (d, tx1) ∧
      tx1 = ⟨[⟨none, 9⟩], 4⟩ ∧ ∀ inp ∈ tx1.input, inp.script = none :=
  sha256_tx_one_input_deterministic (fun tx => List.replicate tx.rest 0)
    (fun l => l.length) ⟨[⟨none, 9⟩], 4⟩ [7, 7] (by decide) (by decide)

/-- C6: under the preconditions (input index in bounds, all input
scripts empty, p2sh-shaped output script, both signatures canonical),
`check_2of2_sig` returns a boolean that is `true` exactly when both
component `check_signed_hash` verifications — `sig1` against `key1` and
`sig2` against `key2`, over the one shared digest — return `true`; the
short-circuit evaluation does not change the result. -/
theorem check_2of2_sig_iff_both {D P : Type} (ser : BitcoinTx → List Nat)
    (hash2 : List Nat → D) (isP2SH : List Nat → Bool)
    (decodePub : List Nat → Option P)
    (ecdsaVerify : D → Nat → Nat → P → Int) (tx : BitcoinTx)
    (input_num : Nat) (output : TxOutput) (key1 key2 : Pubkey)
    (sig1 sig2 : Signature) (hlt : input_num < tx.input.length)
    (hempty : ∀ inp ∈ tx.input, inp.script = none)
    (hp2sh : isP2SH output.script = true)
    (hc1 : (sig1.s.getD 31 1) % 2 = 0)
    (hc2 : (sig2.s.getD 31 1) % 2 = 0) :
    ∃ d b,
      sha256_tx_one_input ser hash2 tx input_num output.script =
        some (d, tx) ∧
      check_2of2_sig ser hash2 isP2SH decodePub ecdsaVerify tx input_num
        output key1 key2 sig1 sig2 = some b ∧
      (b = true ↔
        check_signed_hash decodePub ecdsaVerify d sig1 key1 = some true ∧
        check_signed_hash decodePub ecdsaVerify d sig2 key2 = some true) := by
  have hsha :=
    sha256_tx_one_input_spec ser hash2 tx input_num output.script hlt hempty
  obtain ⟨v1, hv1⟩ := check_signed_hash_some decodePub ecdsaVerify
    (hash2 (ser { tx with
        input := setScript tx.input input_num (some output.script) } ++
      le32 SIGHASH_ALL)) sig1 key1 hc1
  obtain ⟨v2, hv2⟩ := check_signed_hash_some decodePub ecdsaVerify
    (hash2 (ser { tx with
        input := setScript tx.input input_num (some output.script) } ++
      le32 SIGHASH_ALL)) sig2 key2 hc2
  refine ⟨_, v1 && v2, hsha, ?_, ?_⟩
  · rw [check_2of2_sig, if_pos hlt, hp2sh, if_pos rfl, hsha,
      Option.some_bind, hv1, Option.some_bind]
    cases v1 with
    | false => rfl
    | true => rw [if_pos rfl, hv2, Bool.true_and]
  · cases v1 <;> cases v2 <;> simp_all

theorem check_2of2_sig_iff_both_witness :
    ∃ d b,
      sha256_tx_one_input (fun _ => ([] : List Nat)) (fun l => l.length)
          ⟨[⟨none, 0⟩], 0⟩ 0 ([3] : List Nat) =
        some (d, ⟨[⟨none, 0⟩], 0⟩) ∧
      check_2of2_sig (fun _ => []) (fun l => l.length) (fun _ => true)
        (fun _ => some 0) (fun _ _ _ _ => 1) ⟨[⟨none, 0⟩], 0⟩ 0
        ⟨5, [3]⟩ ⟨[2]⟩ ⟨[4]⟩ ⟨List.replicate 32 0, List.replicate 32 0⟩
        ⟨List.replicate 32 1, List.replicate 32 2⟩ = some b ∧
      (b = true ↔
        check_signed_hash (fun _ => some (0 : Nat)) (fun _ _ _ _ => (1 : Int))
            d ⟨List.replicate 32 0, List.replicate 32 0⟩ ⟨[2]⟩ = some true ∧
        check_signed_hash (fun _ => some (0 : Nat)) (fun _ _ _ _ => (1 : Int))
            d ⟨List.replicate 32 1, List.replicate 32 2⟩ ⟨[4]⟩ = some true) :=
  check_2of2_sig_iff_both (fun _ => []) (fun l => l.length) (fun _ => true)
    (fun _ => some 0) (fun _ _ _ _ => 1) ⟨[⟨none, 0⟩], 0⟩ 0 ⟨5, [3]⟩
    ⟨[2]⟩ ⟨[4]⟩ ⟨List.replicate 32 0, List.replicate 32 0⟩
    ⟨List.replicate 32 1, List.replicate 32 2⟩ (by decide) (by decide)
    (by decide) (by decide) (by decide)
